import Mathlib

/-
Verification of the data-plane core of the neked--tun TCP/UDP-over-QUIC tunnel.

Shallow embedding of src/Quic/src/tcp/tcp_tunnel.rs and
src/Quic/src/udp/udp_tunnel.rs. Stateful and asynchronous code is embedded as
pure functions over explicit oracles: the outcome of each awaited I/O
operation (timed read, write, finish, shutdown, open_bi, dial) is an input,
and the observable actions of the code (bytes written to a sink, map
insertions and removals, spawned pump tasks, log classifications) are
explicit outputs. The shared AtomicI32 activity epoch of a TCP session is
modelled as a Nat counting all fetch_add calls, observed modulo 2^32 to
reflect i32 wraparound.
-/

namespace NekedTun

/-- Embedding of the TransferError enum of tcp_tunnel.rs. -/
inductive TransferError where
  | InternalError
  | TimeoutError
deriving DecidableEq, Repr

/-- Result of one pump step, embedding the Rust type Result of usize and TransferError. -/
inductive PumpResult where
  | ok (n : Nat)
  | err (e : TransferError)
deriving DecidableEq, Repr

/-- Outcome of an awaited I/O operation wrapped in tokio timeout: the timer
expired, the operation itself failed, or it returned a value. -/
inductive TimedRead (α : Type) where
  | timeout
  | ioErr
  | ok (a : α)
deriving DecidableEq, Repr

/-- Outcome of a write_all call on a sink half: all bytes written, or the call
failed after delivering only the first d bytes of the chunk. -/
inductive WriteOutcome where
  | ok
  | errAfter (d : Nat)
deriving DecidableEq, Repr

/-- Modulus of the i32 activity epoch: AtomicI32 fetch_add wraps at 2^32. -/
def I32_MOD : Nat := 2 ^ 32

/-- Observed value of the shared epoch counter after n total increments,
modelling i32 wraparound of the AtomicI32. Two observed values are equal
exactly when the underlying i32 bit patterns are. -/
def epochObs (n : Nat) : Nat := n % I32_MOD

/-- Embedding of the per-iteration exit decision of both pump task loops in
TcpTunnel::run (tcp_tunnel.rs lines 105 to 118 and 139 to 152). Arguments are
the observed epoch values: c_start from the load before the pump call and
c_end, the previous value returned by the fetch_add after it. Returns true
when the loop breaks. -/
def loopExits (result : PumpResult) (c_start c_end : Nat) : Bool :=
  match result with
  | .err .TimeoutError => c_start == c_end
  | .ok 0 => true
  | .err .InternalError => true
  | .ok (_ + 1) => false

/-- Observable effects of one pump step: the returned result, the amount added
to transfer_bytes, the bytes actually delivered to the sink half, and whether
the sink was successfully half-closed. -/
structure StepEffects where
  result : PumpResult
  counterAdd : Nat
  delivered : Nat
  halfClosed : Bool
deriving DecidableEq, Repr

/-- Oracle for one TcpTunnel::tcp_to_quic step: the timed TCP read outcome
(a zero length read is end-of-stream), the write_all outcome on the QUIC send
half, and whether finish succeeds. -/
structure TcpToQuicStep where
  read : TimedRead Nat
  write : WriteOutcome
  finishOk : Bool
deriving DecidableEq, Repr

/-- Embedding of TcpTunnel::tcp_to_quic (tcp_tunnel.rs lines 159 to 184).
The timeout maps to TimeoutError and a read error to InternalError; on a read
of n > 0 bytes, transfer_bytes is incremented by n before write_all, so a
failed write still counts n; on a zero byte read, finish is called on the
QUIC send half and the step returns Ok 0, or InternalError if finish fails. -/
def tcp_to_quic (s : TcpToQuicStep) : StepEffects :=
  match s.read with
  | .timeout => ⟨.err .TimeoutError, 0, 0, false⟩
  | .ioErr => ⟨.err .InternalError, 0, 0, false⟩
  | .ok n =>
    if 0 < n then
      match s.write with
      | .ok => ⟨.ok n, n, n, false⟩
      | .errAfter d => ⟨.err .InternalError, n, d, false⟩
    else if s.finishOk then ⟨.ok 0, 0, 0, true⟩
    else ⟨.err .InternalError, 0, 0, false⟩

/-- Oracle for one TcpTunnel::quic_to_tcp step: the timed QUIC read outcome
(none is end-of-stream, some n a chunk of n bytes), the write_all outcome on
the TCP write half, and whether shutdown succeeds. -/
structure QuicToTcpStep where
  read : TimedRead (Option Nat)
  write : WriteOutcome
  shutdownOk : Bool
deriving DecidableEq, Repr

/-- Embedding of TcpTunnel::quic_to_tcp (tcp_tunnel.rs lines 186 to 214).
On a chunk of n bytes, transfer_bytes is incremented by n before write_all;
on end-of-stream (read returned none), shutdown is called on the TCP write
half and the step returns Ok 0, or InternalError if shutdown fails. -/
def quic_to_tcp (s : QuicToTcpStep) : StepEffects :=
  match s.read with
  | .timeout => ⟨.err .TimeoutError, 0, 0, false⟩
  | .ioErr => ⟨.err .InternalError, 0, 0, false⟩
  | .ok (some n) =>
    match s.write with
    | .ok => ⟨.ok n, n, n, false⟩
    | .errAfter d => ⟨.err .InternalError, n, d, false⟩
  | .ok none =>
    if s.shutdownOk then ⟨.ok 0, 0, 0, true⟩
    else ⟨.err .InternalError, 0, 0, false⟩

/-- One observed iteration of a pump task loop: the oracle of the pump step
and the number of fetch_add increments performed by the sibling task between
the load of this iteration and its own fetch_add. -/
structure TaskIter (σ : Type) where
  step : σ
  siblingInc : Nat
deriving DecidableEq, Repr

/-- Reason a pump task loop ended. ranOut means the given trace was exhausted
with the loop still running. -/
inductive ExitReason where
  | timeout
  | eos
  | fatal
  | ranOut
deriving DecidableEq, Repr

/-- Exit reason corresponding to a pump result on which loopExits chose to
break: a timeout break, a zero byte end-of-stream, or a fatal error. -/
def breakReason (result : PumpResult) : ExitReason :=
  match result with
  | .err .TimeoutError => .timeout
  | .ok _ => .eos
  | .err .InternalError => .fatal

/-- Embedding of one pump task loop of TcpTunnel::run over a trace of
iterations (tcp_tunnel.rs lines 93 to 119 and 127 to 153). The state e is the
total number of fetch_add increments performed so far on the shared epoch by
both tasks; c_start is its observed value at the load, c_end the observed
previous value returned by the fetch_add of this task, after siblingInc increments
by the sibling landed in between. -/
def runPumpLoop {σ : Type} (stepFn : σ → StepEffects) :
    Nat → List (TaskIter σ) → ExitReason
  | _, [] => .ranOut
  | e, it :: rest =>
    let eff := stepFn it.step
    let c_start := epochObs e
    let c_end := epochObs (e + it.siblingInc)
    if loopExits eff.result c_start c_end then breakReason eff.result
    else runPumpLoop stepFn (e + it.siblingInc + 1) rest

/-- Embedding of one pump task loop of TcpTunnel::run that also accumulates
transfer_bytes and the bytes delivered to the sink. Returns some pair of the
transfer_bytes value reported in the END log and the delivered byte total
when the loop breaks, and none if the trace is exhausted while running. -/
def pumpTaskLoop {σ : Type} (stepFn : σ → StepEffects) :
    Nat → Nat → Nat → List (TaskIter σ) → Option (Nat × Nat)
  | _, _, _, [] => none
  | e, t, d, it :: rest =>
    let eff := stepFn it.step
    let t := t + eff.counterAdd
    let d := d + eff.delivered
    let c_start := epochObs e
    let c_end := epochObs (e + it.siblingInc)
    if loopExits eff.result c_start c_end then some (t, d)
    else pumpTaskLoop stepFn (e + it.siblingInc + 1) t d rest

/-! Ingress TCP driver: TcpTunnel::start. -/

/-- A local TCP connection, identified abstractly. -/
abbrev TcpConn := Nat

/-- Messages received from the local TCP server channel. The driver loop of
TcpTunnel::start treats anything other than a Request as a signal to stop;
the channel closing (end of the modelled queue) stops it as well. -/
inductive TcpMessage where
  | Request (c : TcpConn)
  | Quit
deriving DecidableEq, Repr

/-- Embedding of the inner part of the TcpTunnel::start loop after a TCP
connection has been taken (tcp_tunnel.rs lines 36 to 55): k counts open_bi
attempts so far and opens is the oracle of open_bi outcomes. Returns the
list of connections for which a session was started, in order, and the final
content of the pending slot. -/
def runQueue (opens : Nat → Bool) : Nat → List TcpMessage → List TcpConn × Option TcpConn
  | _, [] => ([], none)
  | _, .Quit :: _ => ([], none)
  | k, .Request c :: rest =>
    if opens k then
      let out := runQueue opens (k + 1) rest
      (c :: out.1, out.2)
    else ([], some c)

/-- Embedding of the TcpTunnel::start driver loop (tcp_tunnel.rs lines 36 to
55): the pending slot, when occupied, is taken before the first queue recv;
each taken connection is paired with an open_bi attempt; on success a session
is started and the loop continues, on failure the connection goes back into
the pending slot and the loop exits. -/
def startLoop (opens : Nat → Bool) (pending : Option TcpConn) (queue : List TcpMessage) :
    List TcpConn × Option TcpConn :=
  match pending with
  | some c =>
    if opens 0 then
      let out := runQueue opens 1 queue
      (c :: out.1, out.2)
    else ([], some c)
  | none => runQueue opens 0 queue

/-- Connections the driver loop takes from the queue starting at open_bi
attempt k: the Request payloads in order, stopping after the first one whose
open_bi attempt fails, or before a Quit or the end of the queue. -/
def takenFromQueue (opens : Nat → Bool) : Nat → List TcpMessage → List TcpConn
  | _, [] => []
  | _, .Quit :: _ => []
  | k, .Request c :: rest =>
    if opens k then c :: takenFromQueue opens (k + 1) rest else [c]

/-- Connections the driver takes overall: the pending one first when present,
then the queue connections up to the stopping point. -/
def takenConns (opens : Nat → Bool) (pending : Option TcpConn) (queue : List TcpMessage) :
    List TcpConn :=
  match pending with
  | some c => if opens 0 then c :: takenFromQueue opens 1 queue else [c]
  | none => takenFromQueue opens 0 queue

/-! Egress drivers: error classification of accept_bi, and the TCP dial step. -/

/-- Connection level errors returned by accept_bi, as matched in
TcpTunnel::process and UdpTunnel::process. All errors other than TimedOut and
ApplicationClosed are collapsed into one constructor. -/
inductive ConnError where
  | TimedOut
  | ApplicationClosed
  | other
deriving DecidableEq, Repr

/-- Log levels used by the accept loops. -/
inductive LogLevel where
  | info
  | debug
  | errorLevel
deriving DecidableEq, Repr

/-- Embedding of the error arms of the accept_bi match in TcpTunnel::process
(tcp_tunnel.rs lines 220 to 233): whether the loop breaks, and the level of
the log line emitted. -/
def tcpAcceptErr (e : ConnError) : Bool × LogLevel :=
  match e with
  | .TimedOut => (true, .info)
  | .ApplicationClosed => (true, .debug)
  | .other => (true, .errorLevel)

/-- Embedding of the error arms of the accept_bi match in UdpTunnel::process
(udp_tunnel.rs lines 172 to 185): whether the loop breaks, and the level of
the log line emitted. -/
def udpAcceptErr (e : ConnError) : Bool × LogLevel :=
  match e with
  | .TimedOut => (true, .info)
  | .ApplicationClosed => (true, .debug)
  | .other => (true, .errorLevel)

/-- A QUIC stream half, identified abstractly. -/
abbrev StreamId := Nat

/-- Outcome of the timed upstream TCP dial in TcpTunnel::process. -/
inductive DialOutcome where
  | ok (tcp : TcpConn)
  | dialErr
  | dialTimeout
deriving DecidableEq, Repr

/-- Action taken by the egress TCP driver on one accepted stream. -/
inductive EgressAction where
  | startedSession (tcp : TcpConn) (sendHalf recvHalf : StreamId)
  | loggedAndContinued
deriving DecidableEq, Repr

/-- Modelled from the spec: the Ok branch of the accept_bi match in
TcpTunnel::process (tcp_tunnel.rs lines 234 to 247). The source at line 242
passes an undefined variable quic_stream to Self::run although the accepted
pair was destructured as (quic_send, quic_recv), so that branch does not
compile; the spec states the faithful intent, namely that the session is
started with the dialed TCP stream and the accepted pair of halves. On dial
failure or dial timeout the driver logs and continues accepting. -/
def egressAcceptOk (quic_send quic_recv : StreamId) (dial : DialOutcome) : EgressAction :=
  match dial with
  | .ok tcp => .startedSession tcp quic_send quic_recv
  | .dialErr => .loggedAndContinued
  | .dialTimeout => .loggedAndContinued

/-! Prologue of TcpTunnel::run. -/

/-- Observable effects of TcpTunnel::run before and including spawning the
two pump tasks. -/
inductive RunEffect where
  | loggedPeerAddrError
  | loggedStart
  | spawnedQuicToTcpPump
  | spawnedTcpToQuicPump
  | finishedQuicSend
deriving DecidableEq, Repr

/-- Embedding of the prologue of TcpTunnel::run (tcp_tunnel.rs lines 61 to
122): after splitting both streams, peer_addr is queried on the TCP read
half; on failure the function logs and returns at once, dropping all four
halves without spawning anything and without finishing the QUIC send half;
on success it logs START and spawns the two pump tasks. -/
def runEffects (peerAddr : Option Nat) : List RunEffect :=
  match peerAddr with
  | none => [.loggedPeerAddrError]
  | some _ => [.loggedStart, .spawnedQuicToTcpPump, .spawnedTcpToQuicPump]

/-! UDP session map: UdpTunnel::open_stream and the per-peer recv task. -/

/-- A UDP peer address, identified abstractly. -/
abbrev PeerAddr := Nat

/-- The UDP session map, embedded as an association list from peer address to
the stream id of the mutex-guarded QUIC send half held for that peer. -/
abbrev UdpMap := List (PeerAddr × StreamId)

/-- Observable effects of UdpTunnel::open_stream and of the per-peer recv
task it spawns. -/
inductive UdpEffect where
  | openedBi (sid : StreamId)
  | sentReqUdpStart (peer : PeerAddr)
  | inserted (peer : PeerAddr)
  | deliveredPacket (peer : PeerAddr) (len : Nat)
  | recvTaskExited (peer : PeerAddr)
  | removed (peer : PeerAddr)
deriving DecidableEq, Repr

/-- Lookup of a peer address in the UDP session map, embedding the DashMap
get by key. -/
def lookupPeer : UdpMap → PeerAddr → Option StreamId
  | [], _ => none
  | (k, v) :: rest, peer => if peer = k then some v else lookupPeer rest peer

/-- Oracle for the two fallible awaits of UdpTunnel::open_stream on a map
miss: whether open_bi succeeds and whether sending ReqUdpStart succeeds. -/
structure OpenOracle where
  openOk : Bool
  sendReqOk : Bool
deriving DecidableEq, Repr

/-- Embedding of UdpTunnel::open_stream (udp_tunnel.rs lines 85 to 166) up to
the spawn of the recv task. On a map hit the existing send half handle is
returned with no effect at all; on a miss a fresh bidi stream is opened,
ReqUdpStart is sent on it, and only then is the new entry inserted. Either
await failing propagates an error and leaves the map unchanged. Returns the
result, the new map, and the effect list in order. -/
def open_stream (m : UdpMap) (peer : PeerAddr) (fresh : StreamId) (o : OpenOracle) :
    Except Unit StreamId × UdpMap × List UdpEffect :=
  match lookupPeer m peer with
  | some sid => (.ok sid, m, [])
  | none =>
    if o.openOk then
      if o.sendReqOk then
        (.ok fresh, (peer, fresh) :: m,
          [.openedBi fresh, .sentReqUdpStart peer, .inserted peer])
      else (.error (), m, [.openedBi fresh])
    else (.error (), m, [])

/-- Embedding of the map removal at the end of the recv task spawned by
UdpTunnel::open_stream (udp_tunnel.rs line 158): the DashMap remove of the
peer key. -/
def removeEntry (m : UdpMap) (peer : PeerAddr) : UdpMap :=
  m.filter (fun e => e.1 != peer)

/-- Embedding of the recv task loop spawned by UdpTunnel::open_stream
(udp_tunnel.rs lines 119 to 163) as its effect trace over the timed recv_raw
outcomes: each successful frame is delivered to the local UDP server as a
packet for the peer; the first read error or timeout breaks the loop, after
which the entry is removed from the map. An exhausted trace means the task
is still running and has removed nothing. -/
def recvTaskEffects (peer : PeerAddr) : List (TimedRead Nat) → List UdpEffect
  | [] => []
  | .ok len :: rest => .deliveredPacket peer len :: recvTaskEffects peer rest
  | .ioErr :: _ => [.recvTaskExited peer, .removed peer]
  | .timeout :: _ => [.recvTaskExited peer, .removed peer]

/-- Keys of the UDP session map are pairwise distinct: at most one entry per
peer address. -/
def keysNodup (m : UdpMap) : Prop := (m.map Prod.fst).Nodup

/-! UDP framing, modelled from the spec. -/

/-- Modelled from the spec: TunnelMessage::send_raw (tunnel_message.rs is not
part of this repository snapshot). A frame is the payload preceded by a
length marker, appended to the stream of bytes already sent; this is the
length-delimited framing the spec prescribes, preserving datagram
boundaries. Bytes are modelled as Nat. -/
def send_raw (stream : List Nat) (payload : List Nat) : List Nat :=
  stream ++ payload.length :: payload

/-- Modelled from the spec: TunnelMessage::recv_raw (tunnel_message.rs is not
part of this repository snapshot). Reads one length-delimited frame from the
front of the stream, returning the payload and the remaining stream, or none
if no complete frame is available. -/
def recv_raw (stream : List Nat) : Option (List Nat × List Nat) :=
  match stream with
  | [] => none
  | len :: rest => if len ≤ rest.length then some (rest.take len, rest.drop len) else none

/-- Embedding of the per-datagram send paths (udp_tunnel.rs lines 63 to 75
for the ingress per-peer path, serialized by the per-entry mutex, and lines
219 to 251 for the egress upstream-to-tunnel relay): each datagram is sent
as one send_raw frame, in order. -/
def sendAll (stream : List Nat) (ps : List (List Nat)) : List Nat :=
  ps.foldl send_raw stream

/-- Embedding of the frame-consuming relay loops (udp_tunnel.rs lines 124 to
156 and 253 to 279): perform n recv_raw calls, collecting the payloads in
order together with the remaining stream; none if any recv_raw fails. -/
def recvAll : Nat → List Nat → Option (List (List Nat) × List Nat)
  | 0, stream => some ([], stream)
  | n + 1, stream =>
    match recv_raw stream with
    | none => none
    | some (p, rest) =>
      match recvAll n rest with
      | none => none
      | some (ps, rest2) => some (p :: ps, rest2)

/-- Oracle of an open_bi that fails on every attempt. -/
def alwaysFailOpen (_ : Nat) : Bool := false

/-! Theorems. -/

/-- C1: in each TCP Session pump task, a loop iteration whose pump step
returns Timeout exits the task exactly when the epoch value loaded before
the pump call equals the previous value returned by the post-pump fetch_add,
and otherwise continues looping; an iteration whose step returns Progress
(Ok n with n positive) always continues looping. -/
theorem pump_iteration_exit_decision {σ : Type} (stepFn : σ → StepEffects)
    (e : Nat) (it : TaskIter σ) (rest : List (TaskIter σ)) :
    ((stepFn it.step).result = .err .TimeoutError →
      runPumpLoop stepFn e (it :: rest) =
        if epochObs e = epochObs (e + it.siblingInc) then .timeout
        else runPumpLoop stepFn (e + it.siblingInc + 1) rest)
    ∧ (∀ n, (stepFn it.step).result = .ok (n + 1) →
      runPumpLoop stepFn e (it :: rest) = runPumpLoop stepFn (e + it.siblingInc + 1) rest) := by
  constructor
  · intro h
    simp only [runPumpLoop, h, loopExits, breakReason]
    by_cases hc : epochObs e = epochObs (e + it.siblingInc)
    · simp [hc]
    · simp [hc]
  · intro n h
    simp only [runPumpLoop, h, loopExits]
    simp

/-- Witness for the exit decision: one iteration with a timed out step at
equal epoch observations, and one with a progress step, both of which the
theorem settles. -/
theorem pump_iteration_exit_decision_witness :
    (runPumpLoop tcp_to_quic 0 [⟨⟨.timeout, .ok, true⟩, 0⟩] =
      if epochObs 0 = epochObs (0 + 0) then .timeout
      else runPumpLoop tcp_to_quic (0 + 0 + 1) [])
    ∧ runPumpLoop tcp_to_quic 0 [⟨⟨.ok 4, .ok, true⟩, 0⟩] =
        runPumpLoop tcp_to_quic (0 + 0 + 1) [] :=
  ⟨(pump_iteration_exit_decision tcp_to_quic 0 ⟨⟨.timeout, .ok, true⟩, 0⟩ []).1 rfl,
   (pump_iteration_exit_decision tcp_to_quic 0 ⟨⟨.ok 4, .ok, true⟩, 0⟩ []).2 3 rfl⟩

/-- C4: a pump step that reads end-of-stream from its source half-closes the
sink and returns Ok 0; in tcp_to_quic a zero byte TCP read leads to finish on
the QUIC send half, in quic_to_tcp a none result leads to shutdown on the TCP
write half; if the finish or shutdown itself errors, the step returns the
fatal InternalError instead, with no successful half-close. -/
theorem pump_eos_half_close (w1 w2 : WriteOutcome) (fOk sOk : Bool) :
    tcp_to_quic ⟨.ok 0, w1, fOk⟩ =
      (if fOk then ⟨.ok 0, 0, 0, true⟩ else ⟨.err .InternalError, 0, 0, false⟩)
    ∧ quic_to_tcp ⟨.ok none, w2, sOk⟩ =
      (if sOk then ⟨.ok 0, 0, 0, true⟩ else ⟨.err .InternalError, 0, 0, false⟩) := by
  cases fOk <;> cases sOk <;> exact ⟨rfl, rfl⟩

/-- C7: in the egress TCP driver, an accepted QUIC stream pair whose upstream
dial succeeds starts a TCP Session with the dialed TCP stream and that same
pair of send and recv halves; on dial failure or dial timeout the driver logs
and continues accepting. Stated over the spec-modelled accept step, since the
corresponding source branch references an undefined variable. -/
theorem egress_dial_session_pairing (s r : StreamId) (tcp : TcpConn) :
    egressAcceptOk s r (.ok tcp) = .startedSession tcp s r
    ∧ egressAcceptOk s r .dialErr = .loggedAndContinued
    ∧ egressAcceptOk s r .dialTimeout = .loggedAndContinued :=
  ⟨rfl, rfl, rfl⟩

/-- C9: in both the TCP and UDP egress accept loops, every accept_bi error
breaks the loop; TimedOut is logged at info level, ApplicationClosed at debug
level, and every other connection error at error level, identically in the
two loops. -/
theorem accept_error_classification :
    (∀ e, (tcpAcceptErr e).1 = true ∧ (udpAcceptErr e).1 = true
      ∧ udpAcceptErr e = tcpAcceptErr e)
    ∧ tcpAcceptErr .TimedOut = (true, .info)
    ∧ tcpAcceptErr .ApplicationClosed = (true, .debug)
    ∧ tcpAcceptErr .other = (true, .errorLevel) := by
  refine ⟨?_, rfl, rfl, rfl⟩
  intro e
  cases e <;> exact ⟨rfl, rfl, rfl⟩

/-- C10: when querying the peer address of the TCP stream fails in
TcpTunnel::run, the function returns after only logging the error: neither
pump task is spawned, so no session is started, and the QUIC send half is
dropped without finish. -/
theorem run_peer_addr_failure_no_session :
    runEffects none = [.loggedPeerAddrError]
    ∧ RunEffect.spawnedQuicToTcpPump ∉ runEffects none
    ∧ RunEffect.spawnedTcpToQuicPump ∉ runEffects none
    ∧ RunEffect.finishedQuicSend ∉ runEffects none := by
  refine ⟨rfl, ?_, ?_, ?_⟩ <;> simp [runEffects]

/-- Observed epoch values differ when between 1 and 2^32 - 1 sibling
increments landed between the load and the fetch_add. -/
theorem epochObs_ne_of_inc (e k : Nat) (h1 : 1 ≤ k) (h2 : k < I32_MOD) :
    epochObs e ≠ epochObs (e + k) := by
  unfold epochObs I32_MOD at *
  omega

/-- C2 counterexample: a pump task iteration whose wait window saw 2^32
sibling increments, each one standing for a completed transfer in the other
direction, still exits with a timeout, because the i32 epoch wraps around to
the loaded value. This falsifies the claim that a direction whose sibling
makes progress during every wait window never exits due to a timeout. -/
theorem idle_kills_on_epoch_wraparound :
    1 ≤ (TaskIter.mk (⟨.timeout, .ok, true⟩ : TcpToQuicStep) (2 ^ 32)).siblingInc
    ∧ runPumpLoop tcp_to_quic 0
        [TaskIter.mk (⟨.timeout, .ok, true⟩ : TcpToQuicStep) (2 ^ 32)] = .timeout := by
  constructor
  · decide
  · decide

/-- C2 amended: if on every loop iteration of a pump task that times out the
sibling direction performed at least one and fewer than 2^32 epoch
increments during the wait window, then this task never exits due to a
timeout, no matter how long it stays idle. -/
theorem idle_direction_never_kills {σ : Type} (stepFn : σ → StepEffects)
    (e : Nat) (tr : List (TaskIter σ))
    (h : ∀ it ∈ tr, (stepFn it.step).result = .err .TimeoutError →
      1 ≤ it.siblingInc ∧ it.siblingInc < I32_MOD) :
    runPumpLoop stepFn e tr ≠ .timeout := by
  induction tr generalizing e with
  | nil => simp [runPumpLoop]
  | cons it rest ih =>
    have hhead := h it (List.mem_cons_self _ _)
    have htail : ∀ it2 ∈ rest, (stepFn it2.step).result = .err .TimeoutError →
        1 ≤ it2.siblingInc ∧ it2.siblingInc < I32_MOD :=
      fun it2 hm => h it2 (List.mem_cons_of_mem _ hm)
    simp only [runPumpLoop]
    cases hr : (stepFn it.step).result with
    | ok n =>
      cases n with
      | zero => simp [hr, loopExits, breakReason]
      | succ n => simpa [hr, loopExits] using ih (e + it.siblingInc + 1) htail
    | err te =>
      cases te with
      | InternalError => simp [hr, loopExits, breakReason]
      | TimeoutError =>
        obtain ⟨h1, h2⟩ := hhead hr
        have hne := epochObs_ne_of_inc e it.siblingInc h1 h2
        simpa [hr, loopExits, hne] using ih (e + it.siblingInc + 1) htail

/-- Witness for the amended idle law: a trace with one benign timeout window
covered by a single sibling increment and then an end-of-stream never ends
in a timeout exit. -/
theorem idle_direction_never_kills_witness :
    runPumpLoop tcp_to_quic 0
      [TaskIter.mk (⟨.timeout, .ok, true⟩ : TcpToQuicStep) 1,
       TaskIter.mk (⟨.ok 0, .ok, true⟩ : TcpToQuicStep) 0] ≠ .timeout :=
  idle_direction_never_kills tcp_to_quic 0 _ (by decide)

/-- Accounting lemma for the inner driver loop: the sessions started plus
the content of the pending slot are exactly the connections taken from the
queue. -/
theorem runQueue_accounting (opens : Nat → Bool) (queue : List TcpMessage) :
    ∀ k, (runQueue opens k queue).1 ++ (runQueue opens k queue).2.toList
      = takenFromQueue opens k queue := by
  induction queue with
  | nil => intro k; rfl
  | cons msg rest ih =>
    intro k
    cases msg with
    | Quit => rfl
    | Request c =>
      by_cases hk : opens k
      · simp only [runQueue, takenFromQueue, hk, if_true, List.cons_append]
        exact congrArg (c :: ·) (ih (k + 1))
      · simp [runQueue, takenFromQueue, hk]

/-- C3: every connection the ingress TCP driver loop takes, from the pending
slot or from the server queue, either gets a session started for it (open_bi
succeeded) or ends up stored in the pending slot with the loop exiting
(open_bi failed); none is dropped. The pending slot, when occupied, is
consumed before the server queue, and an open_bi failure on it puts it
straight back and exits the loop. -/
theorem ingress_driver_accounting (opens : Nat → Bool) (pending : Option TcpConn)
    (queue : List TcpMessage) :
    (startLoop opens pending queue).1 ++ (startLoop opens pending queue).2.toList
      = takenConns opens pending queue
    ∧ (∀ c, pending = some c → (takenConns opens pending queue).head? = some c)
    ∧ (∀ c, pending = some c → opens 0 = false →
        startLoop opens pending queue = ([], some c)) := by
  refine ⟨?_, ?_, ?_⟩
  · cases pending with
    | none => exact runQueue_accounting opens queue 0
    | some c =>
      by_cases h0 : opens 0
      · simp only [startLoop, takenConns, h0, if_true, List.cons_append]
        exact congrArg (c :: ·) (runQueue_accounting opens queue 1)
      · simp [startLoop, takenConns, h0]
  · intro c hc
    subst hc
    by_cases h0 : opens 0 <;> simp [takenConns, h0]
  · intro c hc h0
    subst hc
    simp [startLoop, h0]

/-- Witness for the driver accounting at a concrete pending connection, a
concrete queue and an open_bi oracle that fails at once: the connection is
put back into the pending slot and the loop exits with no session started. -/
theorem ingress_driver_accounting_witness :
    startLoop alwaysFailOpen (some 7) [TcpMessage.Request 9] = ([], some 7) :=
  (ingress_driver_accounting alwaysFailOpen (some 7) [TcpMessage.Request 9]).2.2 7 rfl rfl

/-- C5 counterexample: a session direction that reads 5 bytes and then fails
the sink write exits with transfer_bytes already incremented to 5 while 0
bytes reached the sink, because tcp_to_quic adds the read length to the
counter before write_all; the END log line reports 5 although 0 bytes were
delivered. -/
theorem end_log_overcounts_on_write_error :
    pumpTaskLoop tcp_to_quic 0 0 0
      [TaskIter.mk (⟨.ok 5, .errAfter 0, true⟩ : TcpToQuicStep) 0] = some (5, 0)
    ∧ (5 : Nat) ≠ 0 := by
  exact ⟨rfl, by decide⟩

/-- Steps of tcp_to_quic whose write succeeds add to the counter exactly the
bytes they deliver to the sink. -/
theorem tcp_to_quic_write_ok_counts (s : TcpToQuicStep) (h : s.write = .ok) :
    (tcp_to_quic s).counterAdd = (tcp_to_quic s).delivered := by
  obtain ⟨rd, w, f⟩ := s
  cases h
  cases rd with
  | timeout => rfl
  | ioErr => rfl
  | ok n =>
    by_cases hn : 0 < n
    · simp [tcp_to_quic, hn]
    · cases f <;> simp [tcp_to_quic, hn]

/-- Steps of quic_to_tcp whose write succeeds add to the counter exactly the
bytes they deliver to the sink. -/
theorem quic_to_tcp_write_ok_counts (s : QuicToTcpStep) (h : s.write = .ok) :
    (quic_to_tcp s).counterAdd = (quic_to_tcp s).delivered := by
  obtain ⟨rd, w, f⟩ := s
  cases h
  cases rd with
  | timeout => rfl
  | ioErr => rfl
  | ok c =>
    cases c with
    | none => cases f <;> rfl
    | some n => rfl

/-- Accounting invariant of the pump task loop: when every step of the trace
adds to transfer_bytes exactly what it delivers to the sink, a loop that
breaks reports equal counter and delivered totals. -/
theorem pumpTaskLoop_counts_delivered {σ : Type} (stepFn : σ → StepEffects)
    (tr : List (TaskIter σ))
    (h : ∀ it ∈ tr, (stepFn it.step).counterAdd = (stepFn it.step).delivered) :
    ∀ e t d p, t = d → pumpTaskLoop stepFn e t d tr = some p → p.1 = p.2 := by
  induction tr with
  | nil => intro e t d p _ hp; simp [pumpTaskLoop] at hp
  | cons it rest ih =>
    intro e t d p htd hp
    have hhead := h it (List.mem_cons_self _ _)
    have htail : ∀ it2 ∈ rest,
        (stepFn it2.step).counterAdd = (stepFn it2.step).delivered :=
      fun it2 hm => h it2 (List.mem_cons_of_mem it hm)
    simp only [pumpTaskLoop] at hp
    by_cases hc : loopExits (stepFn it.step).result (epochObs e)
        (epochObs (e + it.siblingInc)) = true
    · rw [if_pos hc] at hp
      obtain rfl : (t + (stepFn it.step).counterAdd,
          d + (stepFn it.step).delivered) = p := by
        exact Option.some.inj hp
      simp only
      omega
    · rw [if_neg hc] at hp
      exact ih htail (e + it.siblingInc + 1) _ _ p (by omega) hp

/-- C5 amended: for each direction of a TCP session, the byte count reported
in the END log line of that direction equals the bytes delivered to the sink
half whenever every sink write of the session succeeded, which covers normal
end-of-stream and timeout terminations; a failed sink write makes the
reported count exceed the delivered bytes by the undelivered part of the
final chunk, since the counter is incremented before write_all. -/
theorem end_log_bytes_delivered (trT : List (TaskIter TcpToQuicStep))
    (trQ : List (TaskIter QuicToTcpStep)) (e1 e2 : Nat) :
    ((∀ it ∈ trT, it.step.write = .ok) → ∀ p,
      pumpTaskLoop tcp_to_quic e1 0 0 trT = some p → p.1 = p.2)
    ∧ ((∀ it ∈ trQ, it.step.write = .ok) → ∀ p,
      pumpTaskLoop quic_to_tcp e2 0 0 trQ = some p → p.1 = p.2) := by
  constructor
  · intro hw p hp
    refine pumpTaskLoop_counts_delivered tcp_to_quic trT ?_ e1 0 0 p rfl hp
    intro it hm
    exact tcp_to_quic_write_ok_counts it.step (hw it hm)
  · intro hw p hp
    refine pumpTaskLoop_counts_delivered quic_to_tcp trQ ?_ e2 0 0 p rfl hp
    intro it hm
    exact quic_to_tcp_write_ok_counts it.step (hw it hm)

/-- Witness for the amended byte accounting: a direction that transfers 3
bytes with a successful write and then sees end-of-stream reports 3 bytes,
equal to the 3 bytes delivered. -/
theorem end_log_bytes_delivered_witness :
    ((3 : Nat), (3 : Nat)).1 = ((3 : Nat), (3 : Nat)).2 :=
  (end_log_bytes_delivered
      [TaskIter.mk (⟨.ok 3, .ok, true⟩ : TcpToQuicStep) 0,
       TaskIter.mk (⟨.ok 0, .ok, true⟩ : TcpToQuicStep) 0] [] 0 0).1
    (by decide) (3, 3) rfl

/-- Sending frames onto a nonempty stream appends the same bytes the frames
would produce on an empty stream. -/
theorem sendAll_append (ps : List (List Nat)) :
    ∀ s, sendAll s ps = s ++ sendAll [] ps := by
  induction ps with
  | nil => intro s; simp [sendAll]
  | cons p ps ih =>
    intro s
    simp only [sendAll, List.foldl_cons] at ih ⊢
    rw [ih (send_raw s p), ih (send_raw [] p), send_raw, send_raw]
    simp

/-- Reading one frame from the front of an encoded stream yields exactly the
first payload and the rest of the stream. -/
theorem recv_raw_frame (p rest : List Nat) :
    recv_raw (send_raw [] p ++ rest) = some (p, rest) := by
  simp only [send_raw, List.nil_append, List.cons_append, recv_raw]
  rw [if_pos (by simp)]
  rw [List.take_left, List.drop_left]

/-- C6: a sequence of N datagrams with payloads given in order, each sent as
one send_raw frame as the ingress per-peer send path and the egress relay
loops do, is observed by the other side as exactly N recv_raw frames with
the same payloads, hence the same sizes, in the same order, with nothing
left over: the Nth recv_raw returns exactly the bytes of the Nth send_raw. -/
theorem udp_frame_preservation (ps : List (List Nat)) :
    recvAll ps.length (sendAll [] ps) = some (ps, []) := by
  induction ps with
  | nil => rfl
  | cons p ps ih =>
    have hsp : sendAll [] (p :: ps) = send_raw [] p ++ sendAll [] ps := by
      simp only [sendAll, List.foldl_cons]
      have := sendAll_append ps (send_raw [] p)
      simpa [sendAll] using this
    rw [List.length_cons, hsp]
    simp only [recvAll, recv_raw_frame, ih]

/-- Failed lookup of a peer means the peer is not among the map keys. -/
theorem not_mem_keys_of_lookupPeer_none (peer : PeerAddr) :
    ∀ m : UdpMap, lookupPeer m peer = none → peer ∉ m.map Prod.fst := by
  intro m
  induction m with
  | nil => intro _; simp
  | cons kv rest ih =>
    intro h hmem
    obtain ⟨k, v⟩ := kv
    simp only [lookupPeer] at h
    by_cases hpk : peer = k
    · simp [hpk] at h
    · rw [if_neg hpk] at h
      simp only [List.map_cons, List.mem_cons] at hmem
      rcases hmem with h1 | h2
      · exact hpk h1
      · exact ih h h2

/-- Removal of a peer entry only ever appears in a recv task effect trace
right after the exit of the task, which only happens on a read error or a
timeout. -/
theorem removed_only_after_recv_exit (peer : PeerAddr) :
    ∀ tr : List (TimedRead Nat), UdpEffect.removed peer ∈ recvTaskEffects peer tr →
      (∃ pre, recvTaskEffects peer tr =
        pre ++ [.recvTaskExited peer, .removed peer])
      ∧ ∃ r ∈ tr, r = TimedRead.ioErr ∨ r = TimedRead.timeout := by
  intro tr
  induction tr with
  | nil => intro h; simp [recvTaskEffects] at h
  | cons r rest ih =>
    intro h
    cases r with
    | ok len =>
      simp only [recvTaskEffects, List.mem_cons] at h
      rcases h with h1 | h2
      · cases h1
      · obtain ⟨⟨pre, hpre⟩, r2, hr2, hor⟩ := ih h2
        refine ⟨⟨.deliveredPacket peer len :: pre, ?_⟩, r2, List.mem_cons_of_mem _ hr2, hor⟩
        simp only [recvTaskEffects, hpre, List.cons_append]
    | ioErr =>
      exact ⟨⟨[], rfl⟩, .ioErr, List.mem_cons_self _ _, Or.inl rfl⟩
    | timeout =>
      exact ⟨⟨[], rfl⟩, .timeout, List.mem_cons_self _ _, Or.inr rfl⟩

/-- C8: the UDP session map keeps at most one entry per peer address. A
lookup hit returns the existing send half handle with no effect at all, in
particular without opening a stream or sending ReqUdpStart; on a miss the
entry is inserted only after ReqUdpStart was sent on the freshly opened
stream, and a failure of either await leaves the map without the entry;
map operations preserve distinctness of the peer keys; and an entry is
removed only right after its recv task exited on a timeout or read error. -/
theorem udp_session_map_invariants (m : UdpMap) (peer : PeerAddr) (fresh : StreamId)
    (o : OpenOracle) :
    (∀ sid, lookupPeer m peer = some sid →
      open_stream m peer fresh o = (.ok sid, m, []))
    ∧ (lookupPeer m peer = none →
      open_stream m peer fresh ⟨true, true⟩ =
        (.ok fresh, (peer, fresh) :: m,
          [.openedBi fresh, .sentReqUdpStart peer, .inserted peer]))
    ∧ (lookupPeer m peer = none → o.openOk = false ∨ o.sendReqOk = false →
      (open_stream m peer fresh o).2.1 = m
        ∧ UdpEffect.inserted peer ∉ (open_stream m peer fresh o).2.2)
    ∧ (keysNodup m → keysNodup (open_stream m peer fresh o).2.1)
    ∧ (keysNodup m → keysNodup (removeEntry m peer))
    ∧ (∀ tr : List (TimedRead Nat),
        UdpEffect.removed peer ∈ recvTaskEffects peer tr →
        (∃ pre, recvTaskEffects peer tr =
          pre ++ [.recvTaskExited peer, .removed peer])
        ∧ ∃ r ∈ tr, r = TimedRead.ioErr ∨ r = TimedRead.timeout) := by
  obtain ⟨op, sr⟩ := o
  refine ⟨?_, ?_, ?_, ?_, ?_, removed_only_after_recv_exit peer⟩
  · intro sid h
    simp [open_stream, h]
  · intro h
    simp [open_stream, h]
  · intro h ho
    cases op with
    | false => cases sr <;> simp [open_stream, h]
    | true =>
      cases sr with
      | false => simp [open_stream, h]
      | true => simp at ho
  · intro hnd
    cases hl : lookupPeer m peer with
    | some sid => simpa [open_stream, hl] using hnd
    | none =>
      cases op with
      | false => simpa [open_stream, hl] using hnd
      | true =>
        cases sr with
        | false => simpa [open_stream, hl] using hnd
        | true =>
          have hmem := not_mem_keys_of_lookupPeer_none peer m hl
          simp only [open_stream, hl]
          rw [if_pos trivial, if_pos trivial]
          unfold keysNodup
          rw [List.map_cons]
          exact List.nodup_cons.mpr ⟨hmem, hnd⟩
  · intro hnd
    have hsub : List.Sublist ((removeEntry m peer).map Prod.fst) (m.map Prod.fst) :=
      (List.filter_sublist m).map Prod.fst
    exact List.Nodup.sublist hsub hnd

/-- Witness for the session map invariants: opening a stream for a new peer
on an empty map inserts exactly one entry, with the insertion effect after
the ReqUdpStart send effect. -/
theorem udp_session_map_invariants_witness :
    open_stream [] 1 5 ⟨true, true⟩ =
      (.ok 5, [(1, 5)], [.openedBi 5, .sentReqUdpStart 1, .inserted 1]) :=
  (udp_session_map_invariants [] 1 5 ⟨true, true⟩).2.1 rfl

end NekedTun
